import Mathlib

/-!
# autotown: the usage-rollup pipeline of `admin.go`

A shallow embedding of the two handlers of `admin.go` that make up the
rollup pipeline, and the properties of the merge and the fan-out that follow
from the code.

* `handleAsyncRollup` (lines 160-280): the loop over `rec.BoardsSeen` that
  builds the map `items`, and the loop over `items` that reads the previously
  stored row of each key and adjusts `Oldest` before `datastore.PutMulti`.
* `handleUpdateControllers` (lines 86-158): the scan that repackages every
  usage record as a task and enqueues the tasks in batches of 100.

Modelling conventions.

* `time.Time` is an instant, an integer offset from Go's zero time
  (`time.Time{}` is `0`); `After` and `Before` are the strict comparisons of
  instants. Instants before the zero time exist in Go and are negative here.
* Go's `int` is 64 bits wide on the platform the program runs on; `Count++`
  wraps around, see `wrapInt64`.
* `fmt.Sprintf("%x", sha256.Sum256([]byte(s)))` is library code; it is the
  parameter `sha256hex` of everything that hashes.
* `Lat` and `Lon` are only copied by the code, never computed with; they are
  carried as integers.
* A Go map is a list of key/value pairs without repeated keys, kept in the
  order in which the keys were first inserted. Go leaves the iteration order
  of a map unspecified; nothing below depends on the order.
* The datastore is read through a function from keys to `GetResult`.
-/

namespace Autotown

/-! ## Data model -/

/-- An instant of `time.Time`, as an offset from the zero time. -/
abbrev Time := Int

/-- The method `t.After(u)`: the instant `t` is strictly after `u`. -/
def After (t u : Time) : Bool := decide (u < t)

/-- The method `t.Before(u)`: the instant `t` is strictly before `u`. -/
def Before (t u : Time) : Bool := decide (t < u)

/-- A value of Go's 64-bit `int` after an arithmetic operation: the result is
reduced into `[-2^63, 2^63)`. -/
def wrapInt64 (n : Int) : Int := (n + 2 ^ 63) % 2 ^ 64 - 2 ^ 63

/-- The durable aggregate `FoundController`, with the fields `admin.go` reads
and writes. -/
structure FoundController where
  UUID : String
  Name : String
  GitHash : String
  GitTag : String
  UAVOHash : String
  GCSOS : String
  GCSArch : String
  GCSVersion : String
  Addr : String
  Country : String
  Region : String
  City : String
  Lat : Int
  Lon : Int
  Timestamp : Time
  Oldest : Time
  Count : Int
deriving DecidableEq, Repr

/-- The zero value `FoundController{}`. -/
def FoundController.zero : FoundController :=
  { UUID := "", Name := "", GitHash := "", GitTag := "", UAVOHash := "",
    GCSOS := "", GCSArch := "", GCSVersion := "", Addr := "", Country := "",
    Region := "", City := "", Lat := 0, Lon := 0, Timestamp := 0, Oldest := 0,
    Count := 0 }

/-- One element of `rec.BoardsSeen` (lines 177-184). -/
structure BoardSeen where
  CPU : String
  UUID : String
  FwHash : String
  GitHash : String
  GitTag : String
  Name : String
  UavoHash : String
deriving DecidableEq, Repr

/-- The anonymous struct `rec` decoded from `d.RawData` (lines 176-188). -/
structure Report where
  BoardsSeen : List BoardSeen
  CurrentArch : String
  CurrentOS : String
  GCSVersion : String
  ShareIP : String
deriving DecidableEq, Repr

/-- The fields of `asyncUsageData` other than `RawData` (lines 106-115);
`RawData` is carried decoded, as a `Report`, next to it. -/
structure AsyncUsageData where
  IP : String
  Country : String
  Region : String
  City : String
  Lat : Int
  Lon : Int
  Timestamp : Time
deriving DecidableEq, Repr

/-! ## The map `items` -/

/-- The Go map `map[string]FoundController`. -/
abbrev Items := List (String × FoundController)

/-- The read `items[k]`: the stored value, or the zero value when `k` is not
a key. -/
def Items.get : Items → String → FoundController
  | [], _ => FoundController.zero
  | (k', v) :: rest, k => if k' = k then v else Items.get rest k

/-- The write `items[k] = v`. -/
def Items.set : Items → String → FoundController → Items
  | [], k, v => [(k, v)]
  | (k', v') :: rest, k, v =>
    if k' = k then (k', v) :: rest else (k', v') :: Items.set rest k v

/-- The keys of the map. -/
def Items.keys (m : Items) : List String := m.map Prod.fst

/-! ## `handleAsyncRollup`: the loop over the sightings (lines 195-240) -/

/-- Lines 197-204: the key `uuid` of a sighting, or `none` when the loop
continues with the next sighting because both `UUID` and `CPU` are empty. -/
def resolveUUID (sha256hex : String → String) (b : BoardSeen) : Option String :=
  if b.UUID = "" then
    if b.CPU = "" then none else some (sha256hex b.CPU)
  else some b.UUID

/-- Lines 206-208: `b.Name` after the renaming of `"CopterControl"`. -/
def boardName (b : BoardSeen) : String :=
  if b.Name = "CopterControl" then "CC3D" else b.Name

/-- Lines 211-237: what one sighting with key `uuid` does to the value `fc`
read from the map. -/
def updateFC (d : AsyncUsageData) (rec : Report) (uuid : String) (b : BoardSeen)
    (fc : FoundController) : FoundController :=
  let fc :=
    if After d.Timestamp fc.Timestamp then
      { fc with
        UUID := uuid
        Name := boardName b
        GitHash := b.GitHash
        GitTag := b.GitTag
        UAVOHash := b.UavoHash
        GCSOS := rec.CurrentOS
        GCSArch := rec.CurrentArch
        GCSVersion := rec.GCSVersion
        Addr := if rec.ShareIP ≠ "true" then "" else d.IP
        Country := d.Country
        Region := d.Region
        City := d.City
        Lat := d.Lat
        Lon := d.Lon
        Timestamp := d.Timestamp
        Oldest := d.Timestamp }
    else fc
  let fc := if Before d.Timestamp fc.Oldest then { fc with Oldest := d.Timestamp } else fc
  { fc with Count := wrapInt64 (fc.Count + 1) }

/-- One iteration of the loop of lines 196-240. -/
def rollupStep (sha256hex : String → String) (d : AsyncUsageData) (rec : Report)
    (items : Items) (b : BoardSeen) : Items :=
  match resolveUUID sha256hex b with
  | none => items
  | some uuid => items.set uuid (updateFC d rec uuid b (items.get uuid))

/-- The map `items` after the loop of lines 195-240. -/
def rollupItems (sha256hex : String → String) (d : AsyncUsageData) (rec : Report) : Items :=
  rec.BoardsSeen.foldl (rollupStep sha256hex d rec) []

/-! ## `handleAsyncRollup`: the merge with the stored rows (lines 242-279) -/

/-- The outcome of `datastore.Get(c, key, prev)`. -/
inductive GetResult where
  | found (prev : FoundController)
  | noSuchEntity
  | failed
deriving DecidableEq, Repr

/-- The value of `prev` after the `switch` of lines 246-255, when the handler
goes on: the stored row, or the zero value that `prev` was initialised with
when there is no such entity. -/
def GetResult.prev : GetResult → Option FoundController
  | .found p => some p
  | .noSuchEntity => some FoundController.zero
  | .failed => none

/-- Lines 257-262: the adjustment of `v` against `prev`. -/
def mergePrev (prev v : FoundController) : FoundController :=
  let v := if Before prev.Oldest v.Oldest then { v with Oldest := prev.Oldest } else v
  if After prev.Timestamp v.Timestamp then { v with Oldest := prev.Timestamp } else v

/-- The loop of lines 244-266: the pairs of `keys` and `toUpdate` handed to
`datastore.PutMulti`, or `none` when a `datastore.Get` fails and the handler
answers 500 without writing. -/
def mergeRows (get : String → GetResult) : Items → Option (List (String × FoundController))
  | [] => some []
  | (k, v) :: rest =>
    match (get k).prev with
    | none => none
    | some prev =>
      match mergeRows get rest with
      | none => none
      | some rows => some ((k, mergePrev prev v) :: rows)

/-- The handler `handleAsyncRollup` on a decoded request: the rows it hands
to `datastore.PutMulti`, or `none` when it answers 500 before writing. -/
def handleAsyncRollup (sha256hex : String → String) (get : String → GetResult)
    (d : AsyncUsageData) (rec : Report) : Option (List (String × FoundController)) :=
  mergeRows get (rollupItems sha256hex d rec)

/-- The datastore after a successful `datastore.PutMulti(c, keys, toUpdate)`:
each written key reads back the row written for it, every other key is
unchanged. -/
def putMulti (get : String → GetResult) (rows : List (String × FoundController)) :
    String → GetResult :=
  fun k =>
    match rows.lookup k with
    | some fc => .found fc
    | none => get k

/-! ## `handleUpdateControllers` (lines 86-158) -/

/-- A byte string. -/
abbrev Bytes := List Nat

/-- The fields of a `UsageStat` record that the scan reads. -/
structure UsageStat where
  Data : Bytes
  Addr : String
  Country : String
  Region : String
  City : String
  Lat : Int
  Lon : Int
  Timestamp : Time
deriving DecidableEq, Repr

/-- The fields of `taskqueue.Task` that the scan sets. -/
structure Task where
  Path : String
  Payload : Bytes
deriving DecidableEq, Repr

/-- The functions the scan calls and `admin.go` does not define:
`st.uncompress()` (the record with its `Data` decompressed, or `none` for an
error), `json.Marshal` of an `asyncUsageData` whose `RawData` is the given
bytes, and `gz`. -/
structure Codec where
  uncompress : UsageStat → Option UsageStat
  marshal : AsyncUsageData → Bytes → Option Bytes
  gz : Bytes → Option Bytes

/-- What the body of the scan loop does with one record before it touches
`tasks` (lines 99-134). -/
inductive Repack where
  | skipped
  | aborted
  | task (t : Task)
deriving DecidableEq, Repr

/-- Lines 99-134: `continue` when the record does not decompress, `return`
with status 500 when marshalling or compressing fails, otherwise the task
appended to `tasks`. -/
def repackage (cx : Codec) (st : UsageStat) : Repack :=
  match cx.uncompress st with
  | none => .skipped
  | some st =>
    match cx.marshal
        { IP := st.Addr, Country := st.Country, Region := st.Region, City := st.City,
          Lat := st.Lat, Lon := st.Lon, Timestamp := st.Timestamp } st.Data with
    | none => .aborted
    | some j =>
      match cx.gz j with
      | none => .aborted
      | some g => .task { Path := "/asyncRollup", Payload := g }

/-- The response status of the handler and the argument of every
`taskqueue.AddMulti` call it made, in call order. -/
structure FanOut where
  status : Nat
  calls : List (List Task)
deriving DecidableEq, Repr

/-- The scan loop of lines 92-146 followed by the flush of lines 148-157, from
the state `tasks` with the calls `calls` already made, over the records the
query still yields. `addMulti` tells whether a call succeeds. The slice
`tasks` is `nil` exactly when it is empty, since it is only ever appended to or
set to `nil`. -/
def scanFrom (cx : Codec) (addMulti : List Task → Bool) :
    List UsageStat → List Task → List (List Task) → FanOut
  | [], tasks, calls =>
    if tasks ≠ [] then
      if addMulti tasks then ⟨204, calls ++ [tasks]⟩ else ⟨500, calls ++ [tasks]⟩
    else ⟨204, calls⟩
  | st :: rest, tasks, calls =>
    match repackage cx st with
    | .skipped => scanFrom cx addMulti rest tasks calls
    | .aborted => ⟨500, calls⟩
    | .task t =>
      let tasks := tasks ++ [t]
      if tasks.length = 100 then
        if addMulti tasks then scanFrom cx addMulti rest [] (calls ++ [tasks])
        else ⟨500, calls ++ [tasks]⟩
      else scanFrom cx addMulti rest tasks calls

/-- The handler `handleUpdateControllers` on the records the query yields. -/
def handleUpdateControllers (cx : Codec) (addMulti : List Task → Bool)
    (scan : List UsageStat) : FanOut :=
  scanFrom cx addMulti scan [] []

/-- The work items of a scan, in scan order: the tasks of the records that are
repackaged. -/
def workItems (cx : Codec) (scan : List UsageStat) : List Task :=
  scan.filterMap fun st =>
    match repackage cx st with
    | .task t => some t
    | _ => none

/-! ## Notions used to state the properties -/

/-- The sightings of a list whose key is `k`, in order. -/
def sightingsOf (sha256hex : String → String) (k : String) (bs : List BoardSeen) :
    List BoardSeen :=
  bs.filter fun b => decide (resolveUUID sha256hex b = some k)

/-- The value under key `k` after the sightings `bs`, all of key `k`, have
updated the value `fc` one after the other. -/
def aggregate (d : AsyncUsageData) (rec : Report) (k : String) (bs : List BoardSeen)
    (fc : FoundController) : FoundController :=
  bs.foldl (fun fc b => updateFC d rec k b fc) fc

/-- The value of `prev` that the merge of key `k` uses when the read of `k`
does not fail. -/
def prevOf (get : String → GetResult) (k : String) : FoundController :=
  ((get k).prev).getD FoundController.zero

/-- The identity of a sighting in the words of the specification: the `UUID`
when it is not empty, otherwise the digest of the `CPU`. -/
def identityOf (sha256hex : String → String) (b : BoardSeen) : String :=
  if b.UUID ≠ "" then b.UUID else sha256hex b.CPU

/-- The key, `Timestamp`, `Oldest` and `Count` of every row of a write. -/
def timesOf (rows : List (String × FoundController)) : List (String × Time × Time × Int) :=
  rows.map fun r => (r.1, r.2.Timestamp, r.2.Oldest, r.2.Count)

/-- Two deliveries of the same work item in a row: the second run reads the
datastore as the write of the first run left it. -/
def rollupTwice (sha256hex : String → String) (get : String → GetResult)
    (d : AsyncUsageData) (rec : Report) : Option (List (String × FoundController)) :=
  (handleAsyncRollup sha256hex get d rec).bind fun rows =>
    handleAsyncRollup sha256hex (putMulti get rows) d rec

/-! ## Concrete inputs -/

/-- A digest function for concrete inputs: any function of the CPU identifier
will do where the claims do not depend on the digest. -/
def hexStub (s : String) : String := "sha256:" ++ s

/-- A sighting with the given `UUID`, `CPU` and `Name`. -/
def sighting (uuid cpu name : String) : BoardSeen :=
  { CPU := cpu, UUID := uuid, FwHash := "", GitHash := "g-" ++ name, GitTag := "t-" ++ name,
    Name := name, UavoHash := "h-" ++ name }

/-- A report with the given sightings and `ShareIP`. -/
def reportOf (bs : List BoardSeen) (shareIP : String) : Report :=
  { BoardsSeen := bs, CurrentArch := "x86_64", CurrentOS := "Ubuntu", GCSVersion := "1.0",
    ShareIP := shareIP }

/-- A work item received from `10.0.0.7` at the instant `t`. -/
def itemAt (t : Time) : AsyncUsageData :=
  { IP := "10.0.0.7", Country := "NZ", Region := "", City := "", Lat := 0, Lon := 0,
    Timestamp := t }

/-- A datastore holding `row` under the key `k` and nothing else. -/
def storeWith (k : String) (row : FoundController) : String → GetResult :=
  fun j => if j = k then .found row else .noSuchEntity

/-- A stored row of identity `"u"`: first seen at 5, last seen at 10, counted
twice. -/
def storedRow : FoundController :=
  { UUID := "u", Name := "Revo", GitHash := "", GitTag := "", UAVOHash := "",
    GCSOS := "", GCSArch := "", GCSVersion := "", Addr := "", Country := "",
    Region := "", City := "", Lat := 0, Lon := 0, Timestamp := 10, Oldest := 5,
    Count := 2 }

/-- The report of the late work item used below: one sighting of the stored
identity `"u"`. The work item is received at the instant 3, which is later
than the zero time and earlier than the `Timestamp` 10 and the `Oldest` 5 of
`storedRow`. -/
def lateReport : Report := reportOf [sighting "u" "" "Revo"] ""

/-- A codec for concrete inputs: a record with empty `Data` does not
decompress, marshalling puts the timestamp in front of the raw bytes, and `gz`
succeeds on everything. -/
def plainCodec : Codec :=
  { uncompress := fun st => if st.Data = [] then none else some st
    marshal := fun d raw => some (d.Timestamp.toNat :: raw)
    gz := fun j => some j }

/-- A usage record with the given `Data`, received at the instant `t`. -/
def usageAt (t : Time) (data : Bytes) : UsageStat :=
  { Data := data, Addr := "10.0.0.7", Country := "NZ", Region := "", City := "", Lat := 0,
    Lon := 0, Timestamp := t }

/-- A scan of 205 records; the second does not decompress. -/
def scan205 : List UsageStat :=
  usageAt 1 [1] :: usageAt 2 [] :: List.replicate 203 (usageAt 3 [3])

/-! ## Lemmas on the map -/

theorem Items.get_set_same (m : Items) (k : String) (v : FoundController) :
    (m.set k v).get k = v := by
  induction m with
  | nil => simp [Items.set, Items.get]
  | cons kv rest ih =>
    obtain ⟨k', v'⟩ := kv
    by_cases h : k' = k
    · simp [Items.set, Items.get, h]
    · simp [Items.set, Items.get, h, ih]

theorem Items.get_set_other (m : Items) (k j : String) (v : FoundController) (h : k ≠ j) :
    (m.set k v).get j = m.get j := by
  induction m with
  | nil => simp [Items.set, Items.get, h]
  | cons kv rest ih =>
    obtain ⟨k', v'⟩ := kv
    by_cases hk : k' = k
    · subst hk
      simp [Items.set, Items.get, h]
    · by_cases hj : k' = j
      · subst hj
        simp [Items.set, Items.get, hk]
      · simp [Items.set, Items.get, hk, hj, ih]

theorem Items.mem_keys_set (m : Items) (k j : String) (v : FoundController) :
    j ∈ (m.set k v).keys ↔ j = k ∨ j ∈ m.keys := by
  induction m with
  | nil => simp [Items.set, Items.keys]
  | cons kv rest ih =>
    obtain ⟨k', v'⟩ := kv
    by_cases hk : k' = k
    · subst hk
      simp [Items.set, Items.keys]
    · simp only [Items.keys] at ih
      simp [Items.set, Items.keys, hk, ih]
      tauto

theorem Items.nodup_keys_set (m : Items) (k : String) (v : FoundController)
    (h : m.keys.Nodup) : (m.set k v).keys.Nodup := by
  induction m with
  | nil => simp [Items.set, Items.keys]
  | cons kv rest ih =>
    obtain ⟨k', v'⟩ := kv
    have h' : k' ∉ Items.keys rest ∧ (Items.keys rest).Nodup := by
      simpa [Items.keys] using h
    by_cases hk : k' = k
    · subst hk
      simpa [Items.set, Items.keys] using h
    · have hmem := Items.mem_keys_set rest k k' v
      have hnot : k' ∉ (Items.set rest k v).keys := by
        rw [hmem]
        rintro (h1 | h1)
        · exact hk h1
        · exact h'.1 h1
      have := ih h'.2
      simp only [Items.keys] at this hnot
      simp [Items.set, Items.keys, hk, this, hnot]

/-- A pair of the map is what the read of its key returns, when no key is
repeated. -/
theorem Items.get_of_mem (m : Items) (h : m.keys.Nodup) (k : String) (v : FoundController)
    (hm : (k, v) ∈ m) : m.get k = v := by
  induction m with
  | nil => simp at hm
  | cons kv rest ih =>
    obtain ⟨k', v'⟩ := kv
    have h' : k' ∉ Items.keys rest ∧ (Items.keys rest).Nodup := by
      simpa [Items.keys] using h
    rcases List.mem_cons.mp hm with heq | hin
    · cases heq
      simp [Items.get]
    · have hk : k' ≠ k := by
        rintro rfl
        exact h'.1 (List.mem_map.mpr ⟨(k', v), hin, rfl⟩)
      simp [Items.get, hk, ih h'.2 hin]

theorem Items.mem_of_mem_keys (m : Items) (k : String) (h : k ∈ m.keys) :
    (k, m.get k) ∈ m := by
  induction m with
  | nil => simp [Items.keys] at h
  | cons kv rest ih =>
    obtain ⟨k', v'⟩ := kv
    by_cases hk : k' = k
    · subst hk
      simp [Items.get]
    · have : k ∈ Items.keys rest := by
        simp only [Items.keys, List.map_cons, List.mem_cons] at h
        rcases h with h | h
        · exact absurd h.symm hk
        · exact h
      simp [Items.get, hk, ih this]

/-! ## Lemmas on the loop over the sightings -/

theorem foldl_rollupStep_get (sha256hex : String → String) (d : AsyncUsageData) (rec : Report)
    (k : String) (bs : List BoardSeen) (items : Items) :
    (bs.foldl (rollupStep sha256hex d rec) items).get k
      = aggregate d rec k (sightingsOf sha256hex k bs) (items.get k) := by
  induction bs generalizing items with
  | nil => simp [sightingsOf, aggregate]
  | cons b rest ih =>
    rw [List.foldl_cons, ih]
    cases hr : resolveUUID sha256hex b with
    | none => simp [rollupStep, sightingsOf, hr]
    | some u =>
      by_cases hu : u = k
      · subst hu
        simp [rollupStep, sightingsOf, aggregate, hr, Items.get_set_same]
      · have hne : ¬ (some u = some k) := by simpa using hu
        simp [rollupStep, sightingsOf, hr, hu, Items.get_set_other _ _ _ _ hu]

theorem foldl_rollupStep_keys (sha256hex : String → String) (d : AsyncUsageData) (rec : Report)
    (k : String) (bs : List BoardSeen) (items : Items) :
    k ∈ (bs.foldl (rollupStep sha256hex d rec) items).keys
      ↔ k ∈ items.keys ∨ ∃ b ∈ bs, resolveUUID sha256hex b = some k := by
  induction bs generalizing items with
  | nil => simp
  | cons b rest ih =>
    rw [List.foldl_cons, ih]
    cases hr : resolveUUID sha256hex b with
    | none => simp [rollupStep, hr]
    | some u =>
      simp only [rollupStep, hr, Items.mem_keys_set, List.mem_cons, exists_eq_or_imp,
        Option.some.injEq]
      constructor
      · rintro ((h | h) | h)
        · exact Or.inr (Or.inl h.symm)
        · exact Or.inl h
        · exact Or.inr (Or.inr h)
      · rintro (h | h | h)
        · exact Or.inl (Or.inr h)
        · exact Or.inl (Or.inl h.symm)
        · exact Or.inr h

theorem foldl_rollupStep_nodup (sha256hex : String → String) (d : AsyncUsageData) (rec : Report)
    (bs : List BoardSeen) (items : Items) (h : items.keys.Nodup) :
    (bs.foldl (rollupStep sha256hex d rec) items).keys.Nodup := by
  induction bs generalizing items with
  | nil => simpa using h
  | cons b rest ih =>
    rw [List.foldl_cons]
    apply ih
    cases hr : resolveUUID sha256hex b with
    | none => simpa [rollupStep, hr] using h
    | some u => simpa [rollupStep, hr] using Items.nodup_keys_set _ _ _ h

/-- Sightings without a key leave the map as it is. -/
theorem foldl_rollupStep_filter (sha256hex : String → String) (d : AsyncUsageData) (rec : Report)
    (bs : List BoardSeen) (items : Items) :
    bs.foldl (rollupStep sha256hex d rec) items
      = (bs.filter fun b => (resolveUUID sha256hex b).isSome).foldl
          (rollupStep sha256hex d rec) items := by
  induction bs generalizing items with
  | nil => rfl
  | cons b rest ih =>
    cases hr : resolveUUID sha256hex b with
    | none => simp [List.filter_cons, hr, rollupStep, ih]
    | some u => simp [List.filter_cons, hr, ih]

theorem rollupItems_nodup (sha256hex : String → String) (d : AsyncUsageData) (rec : Report) :
    (rollupItems sha256hex d rec).keys.Nodup :=
  foldl_rollupStep_nodup sha256hex d rec rec.BoardsSeen [] (by simp [Items.keys])

theorem rollupItems_get (sha256hex : String → String) (d : AsyncUsageData) (rec : Report)
    (k : String) :
    (rollupItems sha256hex d rec).get k
      = aggregate d rec k (sightingsOf sha256hex k rec.BoardsSeen) FoundController.zero := by
  simpa [rollupItems, Items.get] using
    foldl_rollupStep_get sha256hex d rec k rec.BoardsSeen []

theorem rollupItems_keys (sha256hex : String → String) (d : AsyncUsageData) (rec : Report)
    (k : String) :
    k ∈ (rollupItems sha256hex d rec).keys
      ↔ ∃ b ∈ rec.BoardsSeen, resolveUUID sha256hex b = some k := by
  simpa [rollupItems, Items.keys] using
    foldl_rollupStep_keys sha256hex d rec k rec.BoardsSeen []

/-! ## Lemmas on the value built for one key -/

theorem wrapInt64_of_range (n : Int) (h1 : -(2 ^ 63) ≤ n) (h2 : n < 2 ^ 63) :
    wrapInt64 n = n := by
  unfold wrapInt64
  norm_num at h1 h2 ⊢
  omega

/-- A value whose `Timestamp` and `Oldest` already agree with the report is
only counted by a further sighting. -/
theorem updateFC_of_settled (d : AsyncUsageData) (rec : Report) (k : String) (b : BoardSeen)
    (fc : FoundController) (h1 : fc.Timestamp = max d.Timestamp 0)
    (h2 : fc.Oldest = d.Timestamp) :
    updateFC d rec k b fc = { fc with Count := wrapInt64 (fc.Count + 1) } := by
  have hA : After d.Timestamp fc.Timestamp = false := by
    simp [After, h1]
  have hB : Before d.Timestamp fc.Oldest = false := by
    simp [Before, h2]
  simp [updateFC, hA, hB]

theorem aggregate_of_settled (d : AsyncUsageData) (rec : Report) (k : String)
    (bs : List BoardSeen) (fc : FoundController) (h1 : fc.Timestamp = max d.Timestamp 0)
    (h2 : fc.Oldest = d.Timestamp) :
    aggregate d rec k bs fc
      = { fc with Count := (fun c => wrapInt64 (c + 1))^[bs.length] fc.Count } := by
  induction bs generalizing fc with
  | nil => simp [aggregate]
  | cons b rest ih =>
    have hstep := updateFC_of_settled d rec k b fc h1 h2
    have := ih { fc with Count := wrapInt64 (fc.Count + 1) } h1 h2
    simp only [aggregate, List.foldl_cons] at this ⊢
    rw [hstep, this]
    simp [Function.iterate_succ_apply]

theorem iterate_count (n : Nat) (c : Int) (h0 : 0 ≤ c) (h : c + n < 2 ^ 63) :
    (fun c => wrapInt64 (c + 1))^[n] c = c + n := by
  induction n generalizing c with
  | zero => simp
  | succ m ih =>
    have hw : wrapInt64 (c + 1) = c + 1 := by
      apply wrapInt64_of_range
      · norm_num; omega
      · push_cast at h; omega
    rw [Function.iterate_succ_apply, hw, ih (c + 1) (by omega) (by push_cast at h ⊢; omega)]
    push_cast
    ring

/-- The first sighting of a key leaves `Timestamp` and `Oldest` in agreement
with the report. -/
theorem updateFC_zero_settled (d : AsyncUsageData) (rec : Report) (k : String) (b : BoardSeen) :
    (updateFC d rec k b FoundController.zero).Timestamp = max d.Timestamp 0
      ∧ (updateFC d rec k b FoundController.zero).Oldest = d.Timestamp := by
  rcases lt_trichotomy d.Timestamp 0 with h | h | h
  · have hA : ¬ (0 < d.Timestamp) := not_lt.mpr (le_of_lt h)
    simp [updateFC, After, Before, FoundController.zero, hA, h, max_eq_right (le_of_lt h)]
  · simp [updateFC, After, Before, FoundController.zero, h]
  · simp [updateFC, After, Before, FoundController.zero, h, max_eq_left (le_of_lt h)]

/-- The fields the first sighting sets when the report is later than the zero
time. -/
theorem updateFC_zero_fields (d : AsyncUsageData) (rec : Report) (k : String) (b : BoardSeen)
    (hT : 0 < d.Timestamp) :
    updateFC d rec k b FoundController.zero
      = { UUID := k, Name := boardName b, GitHash := b.GitHash, GitTag := b.GitTag,
          UAVOHash := b.UavoHash, GCSOS := rec.CurrentOS, GCSArch := rec.CurrentArch,
          GCSVersion := rec.GCSVersion,
          Addr := if rec.ShareIP ≠ "true" then "" else d.IP,
          Country := d.Country, Region := d.Region, City := d.City, Lat := d.Lat,
          Lon := d.Lon, Timestamp := d.Timestamp, Oldest := d.Timestamp, Count := 1 } := by
  have : wrapInt64 1 = 1 := by
    apply wrapInt64_of_range <;> norm_num
  simp [updateFC, After, Before, FoundController.zero, hT, this]

/-- The fields after the first sighting when the report is not later than the
zero time: nothing but `Oldest` and `Count` is set. -/
theorem updateFC_zero_early (d : AsyncUsageData) (rec : Report) (k : String) (b : BoardSeen)
    (hT : d.Timestamp ≤ 0) :
    updateFC d rec k b FoundController.zero
      = { FoundController.zero with Oldest := d.Timestamp, Count := 1 } := by
  have hw : wrapInt64 1 = 1 := by
    apply wrapInt64_of_range <;> norm_num
  have hA : ¬ (0 < d.Timestamp) := not_lt.mpr hT
  rcases lt_or_eq_of_le hT with h | h
  · simp [updateFC, After, Before, FoundController.zero, hA, h, hw]
  · simp [updateFC, After, Before, FoundController.zero, h, hw]

theorem updateFC_zero_count (d : AsyncUsageData) (rec : Report) (k : String) (b : BoardSeen) :
    (updateFC d rec k b FoundController.zero).Count = 1 := by
  rcases lt_or_le 0 d.Timestamp with h | h
  · rw [updateFC_zero_fields d rec k b h]
  · rw [updateFC_zero_early d rec k b h]

/-- The value built for a key from its sightings `b :: rest`: the first
sighting decides every field but `Count`, which is incremented once for every
sighting. -/
theorem aggregate_cons_zero_iterate (d : AsyncUsageData) (rec : Report) (k : String)
    (b : BoardSeen) (rest : List BoardSeen) :
    aggregate d rec k (b :: rest) FoundController.zero
      = { updateFC d rec k b FoundController.zero with
          Count := (fun c => wrapInt64 (c + 1))^[rest.length] 1 } := by
  have hs := updateFC_zero_settled d rec k b
  have hc := updateFC_zero_count d rec k b
  have h := aggregate_of_settled d rec k rest (updateFC d rec k b FoundController.zero) hs.1 hs.2
  simp only [aggregate, List.foldl_cons] at h ⊢
  rw [h, hc]

/-- The value built for a key from its sightings `b :: rest`, fewer than
`2^63`: `Count` is the number of sightings. -/
theorem aggregate_cons_zero (d : AsyncUsageData) (rec : Report) (k : String) (b : BoardSeen)
    (rest : List BoardSeen) (hlen : (rest.length : Int) + 1 < 2 ^ 63) :
    aggregate d rec k (b :: rest) FoundController.zero
      = { updateFC d rec k b FoundController.zero with Count := (rest.length : Int) + 1 } := by
  have hi := iterate_count rest.length 1 (by norm_num) (by omega)
  rw [aggregate_cons_zero_iterate, hi, add_comm]

/-! ## Lemmas on the merge with the stored rows -/

theorem mergeRows_eq_some (get : String → GetResult) (items : Items)
    (rows : List (String × FoundController)) (h : mergeRows get items = some rows) :
    rows = items.map fun kv => (kv.1, mergePrev (prevOf get kv.1) kv.2) := by
  induction items generalizing rows with
  | nil =>
    simp [mergeRows] at h
    simp [h]
  | cons kv rest ih =>
    obtain ⟨k, v⟩ := kv
    cases hp : (get k).prev with
    | none => simp [mergeRows, hp] at h
    | some prev =>
      cases hr : mergeRows get rest with
      | none => simp [mergeRows, hp, hr] at h
      | some rows' =>
        simp [mergeRows, hp, hr] at h
        subst h
        simp [ih rows' hr, prevOf, hp]

theorem mergeRows_isSome (get : String → GetResult) (items : Items)
    (hget : ∀ k ∈ items.keys, get k ≠ .failed) :
    ∃ rows, mergeRows get items = some rows := by
  induction items with
  | nil => exact ⟨[], rfl⟩
  | cons kv rest ih =>
    obtain ⟨k, v⟩ := kv
    have hk : get k ≠ .failed := hget k (by simp [Items.keys])
    obtain ⟨rows', hr⟩ := ih (fun j hj => hget j (by
      simp only [Items.keys, List.map_cons, List.mem_cons] at hj ⊢
      exact Or.inr hj))
    cases hg : get k with
    | failed => exact absurd hg hk
    | noSuchEntity =>
      exact ⟨(k, mergePrev FoundController.zero v) :: rows', by
        simp [mergeRows, hg, GetResult.prev, hr]⟩
    | found p =>
      exact ⟨(k, mergePrev p v) :: rows', by simp [mergeRows, hg, GetResult.prev, hr]⟩

/-- The handler hands rows to `datastore.PutMulti` when no read of a key of
the map fails. -/
theorem handleAsyncRollup_isSome (sha256hex : String → String) (get : String → GetResult)
    (d : AsyncUsageData) (rec : Report)
    (hget : ∀ k ∈ (rollupItems sha256hex d rec).keys, get k ≠ .failed) :
    ∃ rows, handleAsyncRollup sha256hex get d rec = some rows :=
  mergeRows_isSome get _ hget

/-- The keys written are the keys of the map. -/
theorem handleAsyncRollup_keys (sha256hex : String → String) (get : String → GetResult)
    (d : AsyncUsageData) (rec : Report) (rows : List (String × FoundController))
    (h : handleAsyncRollup sha256hex get d rec = some rows) :
    rows.map Prod.fst = (rollupItems sha256hex d rec).keys := by
  rw [mergeRows_eq_some get _ rows h]
  simp [Items.keys, Function.comp_def]

/-- Every row written for a key `k` is the value built from the sightings of
`k` in the report, of which there is at least one, adjusted against the stored
row. -/
theorem handleAsyncRollup_row (sha256hex : String → String) (get : String → GetResult)
    (d : AsyncUsageData) (rec : Report) (rows : List (String × FoundController))
    (h : handleAsyncRollup sha256hex get d rec = some rows) (k : String) (v : FoundController)
    (hm : (k, v) ∈ rows) :
    ∃ b rest, sightingsOf sha256hex k rec.BoardsSeen = b :: rest
      ∧ v = mergePrev (prevOf get k)
          { updateFC d rec k b FoundController.zero with
            Count := (fun c => wrapInt64 (c + 1))^[rest.length] 1 } := by
  rw [mergeRows_eq_some get _ rows h] at hm
  obtain ⟨⟨k', v0⟩, hin, heq⟩ := List.mem_map.mp hm
  simp only [Prod.mk.injEq] at heq
  obtain ⟨hk, hv⟩ := heq
  subst hk
  have hget0 := Items.get_of_mem _ (rollupItems_nodup sha256hex d rec) k' v0 hin
  rw [rollupItems_get] at hget0
  have hkey : k' ∈ (rollupItems sha256hex d rec).keys :=
    List.mem_map.mpr ⟨(k', v0), hin, rfl⟩
  obtain ⟨b0, hb0, hres⟩ := (rollupItems_keys sha256hex d rec k').mp hkey
  have hne : sightingsOf sha256hex k' rec.BoardsSeen ≠ [] := by
    intro hnil
    have : b0 ∈ sightingsOf sha256hex k' rec.BoardsSeen := by
      simp [sightingsOf, hb0, hres]
    simp [hnil] at this
  obtain ⟨b, rest, hs⟩ := List.exists_cons_of_ne_nil hne
  refine ⟨b, rest, hs, ?_⟩
  rw [hs, aggregate_cons_zero_iterate] at hget0
  rw [← hv, ← hget0]

/-- Every key with a sighting in the report has a row written. -/
theorem handleAsyncRollup_mem (sha256hex : String → String) (get : String → GetResult)
    (d : AsyncUsageData) (rec : Report) (rows : List (String × FoundController))
    (h : handleAsyncRollup sha256hex get d rec = some rows) (k : String)
    (hk : ∃ b ∈ rec.BoardsSeen, resolveUUID sha256hex b = some k) :
    ∃ v, (k, v) ∈ rows := by
  have hkey := (rollupItems_keys sha256hex d rec k).mpr hk
  rw [← handleAsyncRollup_keys sha256hex get d rec rows h] at hkey
  obtain ⟨⟨k', v⟩, hin, heq⟩ := List.mem_map.mp hkey
  simp only at heq
  subst heq
  exact ⟨v, hin⟩

theorem sightingsOf_length_le (sha256hex : String → String) (k : String) (bs : List BoardSeen) :
    (sightingsOf sha256hex k bs).length ≤ bs.length :=
  List.length_filter_le _ _

theorem mergePrev_fields (prev v : FoundController) :
    (mergePrev prev v).Timestamp = v.Timestamp ∧ (mergePrev prev v).Count = v.Count
      ∧ (mergePrev prev v).Addr = v.Addr ∧ (mergePrev prev v).Name = v.Name
      ∧ (mergePrev prev v).UUID = v.UUID := by
  by_cases h1 : Before prev.Oldest v.Oldest = true <;>
    by_cases h2 : After prev.Timestamp v.Timestamp = true <;>
    simp [mergePrev, h1, h2]

/-- The branch of line 260: when the stored `Timestamp` is later than the one
of `v`, the row written carries the stored `Timestamp` as its `Oldest` and the
`Timestamp` of `v`. -/
theorem mergePrev_out_of_order (prev v : FoundController)
    (h : v.Timestamp < prev.Timestamp) :
    (mergePrev prev v).Oldest = prev.Timestamp
      ∧ (mergePrev prev v).Timestamp = v.Timestamp := by
  have hA : After prev.Timestamp v.Timestamp = true := by
    simp [After, h]
  by_cases h1 : Before prev.Oldest v.Oldest = true <;> simp [mergePrev, h1, hA]

/-- When the stored `Timestamp` is not later than the one of `v`, the row
written carries the earlier of the two `Oldest`. -/
theorem mergePrev_in_order (prev v : FoundController)
    (h : prev.Timestamp ≤ v.Timestamp) :
    (mergePrev prev v).Oldest = min prev.Oldest v.Oldest := by
  have hA : After prev.Timestamp v.Timestamp = false := by
    simp [After, h]
  unfold mergePrev
  by_cases h1 : prev.Oldest < v.Oldest
  · simp [Before, After, h1, not_lt.mpr h, min_eq_left (le_of_lt h1)]
  · simp [Before, After, h1, not_lt.mpr h, min_eq_right (not_lt.mp h1)]

/-! ## The claims on `handleAsyncRollup` -/

/-- C1, as amended: when no read fails, every key with a sighting in the work
item has a row written, and the `Count` written for a key is the number of
sightings of the work item that resolve to that key (at least 1), whatever
`Count` the stored row has. -/
theorem count_written_is_item_count (sha256hex : String → String) (get : String → GetResult)
    (d : AsyncUsageData) (rec : Report)
    (hget : ∀ k ∈ (rollupItems sha256hex d rec).keys, get k ≠ .failed)
    (hlen : (rec.BoardsSeen.length : Int) < 2 ^ 63) :
    ∃ rows, handleAsyncRollup sha256hex get d rec = some rows
      ∧ (∀ k, (∃ b ∈ rec.BoardsSeen, resolveUUID sha256hex b = some k) → ∃ v, (k, v) ∈ rows)
      ∧ ∀ k v, (k, v) ∈ rows →
          v.Count = ((sightingsOf sha256hex k rec.BoardsSeen).length : Int) ∧ 1 ≤ v.Count := by
  obtain ⟨rows, hrows⟩ := handleAsyncRollup_isSome sha256hex get d rec hget
  refine ⟨rows, hrows, fun k hk => handleAsyncRollup_mem sha256hex get d rec rows hrows k hk, ?_⟩
  intro k v hm
  obtain ⟨b, rest, hs, hv⟩ := handleAsyncRollup_row sha256hex get d rec rows hrows k v hm
  have hle := sightingsOf_length_le sha256hex k rec.BoardsSeen
  rw [hs] at hle
  simp only [List.length_cons] at hle
  have hbound : (1 : Int) + (rest.length : Int) < 2 ^ 63 := by
    have : ((rest.length + 1 : Nat) : Int) ≤ (rec.BoardsSeen.length : Int) := by
      exact_mod_cast hle
    push_cast at this
    omega
  have hi := iterate_count rest.length 1 (by norm_num) hbound
  have hc : v.Count = 1 + (rest.length : Int) := by
    rw [hv, (mergePrev_fields _ _).2.1, hi]
  rw [hs, hc]
  constructor
  · simp only [List.length_cons]
    push_cast
    ring
  · omega

/-- C1, witness: a stored row counted twice and a report with one sighting of
its identity. -/
theorem count_written_is_item_count_witness :
    ∃ rows, handleAsyncRollup hexStub (storeWith "u" storedRow) (itemAt 20)
        (reportOf [sighting "u" "" "Revo"] "") = some rows
      ∧ (∀ k, (∃ b ∈ (reportOf [sighting "u" "" "Revo"] "").BoardsSeen,
            resolveUUID hexStub b = some k) → ∃ v, (k, v) ∈ rows)
      ∧ ∀ k v, (k, v) ∈ rows →
          v.Count = ((sightingsOf hexStub k
              (reportOf [sighting "u" "" "Revo"] "").BoardsSeen).length : Int)
            ∧ 1 ≤ v.Count :=
  count_written_is_item_count hexStub (storeWith "u" storedRow) (itemAt 20)
    (reportOf [sighting "u" "" "Revo"] "")
    (by intro k _; unfold storeWith; split <;> simp)
    (by simp [reportOf])

/-- C1, counterexample: the identity `"u"` is stored with `Count = 2`; a later
report with one sighting of `"u"` writes `Count = 1`, which is less than the
stored `Count` and is not the stored `Count` plus one. -/
theorem count_cumulative_counterexample :
    storeWith "u" storedRow "u" = .found storedRow
      ∧ storedRow.Count = 2
      ∧ (handleAsyncRollup hexStub (storeWith "u" storedRow) (itemAt 20)
          (reportOf [sighting "u" "" "Revo"] "")).map timesOf = some [("u", 20, 5, 1)]
      ∧ ¬ (storedRow.Count ≤ 1) := by
  decide

/-- C2, at the failing input: the stored row has `Oldest = 5 <= Timestamp = 10`
and the report is received at 3, later than the zero time; the row written has
`Timestamp = 3` and `Oldest = 10`, so `Oldest <= Timestamp` is broken. -/
theorem late_report_breaks_oldest_le_timestamp :
    storedRow.Oldest ≤ storedRow.Timestamp
      ∧ (0 : Time) < (itemAt 3).Timestamp
      ∧ (handleAsyncRollup hexStub (storeWith "u" storedRow) (itemAt 3) lateReport).map timesOf
          = some [("u", 3, 10, 1)]
      ∧ ¬ ((10 : Time) ≤ 3) := by
  decide

/-- C3, at the failing input: a report received at the instant 1 whose only
sighting has `UUID = ""` and `CPU = "ABC123"`, and no stored row. One row is
written, under the digest of `"ABC123"`, with `Timestamp = 1` and `Count = 1`,
and with `Oldest = 0`, the zero time, in place of 1. -/
theorem new_identity_oldest_is_zero_time (sha256hex : String → String) :
    (handleAsyncRollup sha256hex (fun _ => .noSuchEntity) (itemAt 1)
        (reportOf [sighting "" "ABC123" "Revo"] "")).map timesOf
      = some [(sha256hex "ABC123", 1, 0, 1)] := by
  rfl

/-- C4, at the failing input: the stored row has `Timestamp = 10` and the
report is received at 3; the row written has `Timestamp = 3`, earlier than the
stored one. -/
theorem late_report_regresses_timestamp :
    storedRow.Timestamp = 10
      ∧ ((handleAsyncRollup hexStub (storeWith "u" storedRow) (itemAt 3) lateReport).map
          fun rows => rows.map fun r => (r.1, r.2.Timestamp)) = some [("u", 3)]
      ∧ ¬ (storedRow.Timestamp ≤ 3) := by
  decide

/-- C5, at the failing input: the stored row has `Oldest = 5` and
`Timestamp = 10` and the report is received at 3; the row written has
`Oldest = 10`, later than the stored `Oldest` and not the earlier of 5 and 3. -/
theorem late_report_increases_oldest :
    storedRow.Oldest = 5
      ∧ ((handleAsyncRollup hexStub (storeWith "u" storedRow) (itemAt 3) lateReport).map
          fun rows => rows.map fun r => (r.1, r.2.Oldest)) = some [("u", 10)]
      ∧ ¬ ((10 : Time) ≤ storedRow.Oldest)
      ∧ (10 : Time) ≠ min storedRow.Oldest (itemAt 3).Timestamp := by
  decide

/-- C6, at the failing input: the first delivery of the late report writes
`Oldest = 10`; the second delivery of the same work item reads that row and
writes `Oldest = 3`. -/
theorem redelivery_changes_oldest :
    (handleAsyncRollup hexStub (storeWith "u" storedRow) (itemAt 3) lateReport).map timesOf
        = some [("u", 3, 10, 1)]
      ∧ (rollupTwice hexStub (storeWith "u" storedRow) (itemAt 3) lateReport).map timesOf
        = some [("u", 3, 3, 1)] := by
  decide

/-- C7, as amended: when several sightings of one work item resolve to the
same key, with `b` the first of them in `BoardsSeen` order, the value the loop
builds for the key has as `Count` the number of those sightings and, when the
report is later than the zero time, the `Name` (after the renaming of
`"CopterControl"`), `GitHash`, `GitTag` and `UAVOHash` of `b`. -/
theorem first_sighting_wins (sha256hex : String → String) (d : AsyncUsageData) (rec : Report)
    (k : String) (b : BoardSeen) (rest : List BoardSeen)
    (hs : sightingsOf sha256hex k rec.BoardsSeen = b :: rest)
    (hlen : (rec.BoardsSeen.length : Int) < 2 ^ 63) :
    (k, (rollupItems sha256hex d rec).get k) ∈ rollupItems sha256hex d rec
      ∧ ((rollupItems sha256hex d rec).get k).Count = ((b :: rest).length : Int)
      ∧ (0 < d.Timestamp →
          ((rollupItems sha256hex d rec).get k).Name = boardName b
            ∧ ((rollupItems sha256hex d rec).get k).GitHash = b.GitHash
            ∧ ((rollupItems sha256hex d rec).get k).GitTag = b.GitTag
            ∧ ((rollupItems sha256hex d rec).get k).UAVOHash = b.UavoHash) := by
  have hb : b ∈ sightingsOf sha256hex k rec.BoardsSeen := by simp [hs]
  have hb' : b ∈ rec.BoardsSeen ∧ resolveUUID sha256hex b = some k := by
    simpa [sightingsOf] using hb
  have hkey : k ∈ (rollupItems sha256hex d rec).keys :=
    (rollupItems_keys sha256hex d rec k).mpr ⟨b, hb'.1, hb'.2⟩
  have hle := sightingsOf_length_le sha256hex k rec.BoardsSeen
  rw [hs] at hle
  simp only [List.length_cons] at hle
  have hbound : (rest.length : Int) + 1 < 2 ^ 63 := by
    have : ((rest.length + 1 : Nat) : Int) ≤ (rec.BoardsSeen.length : Int) := by
      exact_mod_cast hle
    push_cast at this
    omega
  refine ⟨Items.mem_of_mem_keys _ k hkey, ?_, ?_⟩
  · rw [rollupItems_get, hs, aggregate_cons_zero d rec k b rest hbound]
    simp
  · intro hT
    rw [rollupItems_get, hs, aggregate_cons_zero d rec k b rest hbound,
      updateFC_zero_fields d rec k b hT]
    simp

/-- C7, witness: two sightings of the identity `"u"` in a report received at
the instant 1. -/
theorem first_sighting_wins_witness :
    ("u", (rollupItems hexStub (itemAt 1)
        (reportOf [sighting "u" "" "CopterControl", sighting "u" "" "Revo"] "")).get "u")
        ∈ rollupItems hexStub (itemAt 1)
          (reportOf [sighting "u" "" "CopterControl", sighting "u" "" "Revo"] "")
      ∧ ((rollupItems hexStub (itemAt 1)
          (reportOf [sighting "u" "" "CopterControl", sighting "u" "" "Revo"] "")).get "u").Count
        = (([sighting "u" "" "CopterControl", sighting "u" "" "Revo"]).length : Int)
      ∧ (0 < (itemAt 1).Timestamp →
          ((rollupItems hexStub (itemAt 1)
              (reportOf [sighting "u" "" "CopterControl", sighting "u" "" "Revo"] "")).get
                "u").Name = boardName (sighting "u" "" "CopterControl")
            ∧ ((rollupItems hexStub (itemAt 1)
              (reportOf [sighting "u" "" "CopterControl", sighting "u" "" "Revo"] "")).get
                "u").GitHash = (sighting "u" "" "CopterControl").GitHash
            ∧ ((rollupItems hexStub (itemAt 1)
              (reportOf [sighting "u" "" "CopterControl", sighting "u" "" "Revo"] "")).get
                "u").GitTag = (sighting "u" "" "CopterControl").GitTag
            ∧ ((rollupItems hexStub (itemAt 1)
              (reportOf [sighting "u" "" "CopterControl", sighting "u" "" "Revo"] "")).get
                "u").UAVOHash = (sighting "u" "" "CopterControl").UavoHash) :=
  first_sighting_wins hexStub (itemAt 1)
    (reportOf [sighting "u" "" "CopterControl", sighting "u" "" "Revo"] "") "u"
    (sighting "u" "" "CopterControl") [sighting "u" "" "Revo"] (by decide) (by decide)

/-- C7, counterexample: a report received at the instant 1 with two sightings
of the identity `"u"`, named `"A"` and then `"B"`. The value built for `"u"`
has the `Name`, `GitHash`, `GitTag` and `UAVOHash` of the sighting named `"A"`,
not of the last sighting, and `Count = 2`. -/
theorem last_sighting_wins_counterexample :
    ((rollupItems hexStub (itemAt 1)
          (reportOf [sighting "u" "" "A", sighting "u" "" "B"] "")).map
        fun r => (r.1, r.2.Name, r.2.GitHash, r.2.GitTag, r.2.UAVOHash, r.2.Count))
        = [("u", "A", "g-A", "t-A", "h-A", 2)]
      ∧ (sighting "u" "" "B").Name = "B"
      ∧ ((rollupItems hexStub (itemAt 1)
          (reportOf [sighting "u" "" "A", sighting "u" "" "B"] "")).get "u").Name
        ≠ (sighting "u" "" "B").Name := by
  decide

/-- C8: when no read fails, every row the handler writes has an empty `Addr`
if `ShareIP` is not exactly `"true"`, and has the `IP` of the work item as
`Addr` if `ShareIP` is `"true"` and the report is later than the zero time. -/
theorem address_redaction (sha256hex : String → String) (get : String → GetResult)
    (d : AsyncUsageData) (rec : Report)
    (hget : ∀ k ∈ (rollupItems sha256hex d rec).keys, get k ≠ .failed) :
    ∃ rows, handleAsyncRollup sha256hex get d rec = some rows
      ∧ (rec.ShareIP ≠ "true" → ∀ k v, (k, v) ∈ rows → v.Addr = "")
      ∧ (rec.ShareIP = "true" → 0 < d.Timestamp → ∀ k v, (k, v) ∈ rows → v.Addr = d.IP) := by
  obtain ⟨rows, hrows⟩ := handleAsyncRollup_isSome sha256hex get d rec hget
  refine ⟨rows, hrows, ?_, ?_⟩
  · intro hshare k v hm
    obtain ⟨b, rest, _, hv⟩ := handleAsyncRollup_row sha256hex get d rec rows hrows k v hm
    rw [hv, (mergePrev_fields _ _).2.2.1]
    rcases lt_or_le 0 d.Timestamp with hT | hT
    · rw [updateFC_zero_fields d rec k b hT]
      simp [hshare]
    · rw [updateFC_zero_early d rec k b hT]
      simp [FoundController.zero]
  · intro hshare hT k v hm
    obtain ⟨b, rest, _, hv⟩ := handleAsyncRollup_row sha256hex get d rec rows hrows k v hm
    rw [hv, (mergePrev_fields _ _).2.2.1, updateFC_zero_fields d rec k b hT]
    simp [hshare]

/-- C8, witness: a report that shares its address, received at the instant 20,
with a sighting of the stored identity `"u"`. -/
theorem address_redaction_witness :
    ∃ rows, handleAsyncRollup hexStub (storeWith "u" storedRow) (itemAt 20)
        (reportOf [sighting "u" "" "Revo"] "true") = some rows
      ∧ ((reportOf [sighting "u" "" "Revo"] "true").ShareIP ≠ "true" →
          ∀ k v, (k, v) ∈ rows → v.Addr = "")
      ∧ ((reportOf [sighting "u" "" "Revo"] "true").ShareIP = "true" →
          0 < (itemAt 20).Timestamp → ∀ k v, (k, v) ∈ rows → v.Addr = (itemAt 20).IP) :=
  address_redaction hexStub (storeWith "u" storedRow) (itemAt 20)
    (reportOf [sighting "u" "" "Revo"] "true")
    (by intro k _; unfold storeWith; split <;> simp)

theorem resolveUUID_eq_some_iff (sha256hex : String → String) (b : BoardSeen) (k : String) :
    resolveUUID sha256hex b = some k
      ↔ (b.UUID ≠ "" ∨ b.CPU ≠ "") ∧ k = identityOf sha256hex b := by
  unfold resolveUUID identityOf
  by_cases hu : b.UUID = ""
  · by_cases hc : b.CPU = ""
    · simp [hu, hc]
    · simp [hu, hc, eq_comm]
  · simp [hu, eq_comm]

theorem resolveUUID_eq_none (sha256hex : String → String) (b : BoardSeen)
    (hu : b.UUID = "") (hc : b.CPU = "") : resolveUUID sha256hex b = none := by
  simp [resolveUUID, hu, hc]

/-- C9: the keys of the map the loop builds are exactly the identities of the
sightings whose `UUID` or `CPU` is not empty, the identity being the `UUID`
when it is not empty and the digest of the `CPU` otherwise; no key is
repeated; the rows written have the keys of the map; and a sighting with
both `UUID` and `CPU` empty, anywhere in `BoardsSeen`, leaves the map as it is
without that sighting. -/
theorem identity_resolution (sha256hex : String → String) (d : AsyncUsageData) (rec : Report) :
    (∀ k, k ∈ (rollupItems sha256hex d rec).keys
        ↔ ∃ b ∈ rec.BoardsSeen, (b.UUID ≠ "" ∨ b.CPU ≠ "") ∧ k = identityOf sha256hex b)
      ∧ (rollupItems sha256hex d rec).keys.Nodup
      ∧ (∀ get rows, handleAsyncRollup sha256hex get d rec = some rows →
          rows.map Prod.fst = (rollupItems sha256hex d rec).keys)
      ∧ (∀ pre b post, rec.BoardsSeen = pre ++ b :: post → b.UUID = "" → b.CPU = "" →
          rollupItems sha256hex d rec
            = rollupItems sha256hex d { rec with BoardsSeen := pre ++ post }) := by
  refine ⟨?_, rollupItems_nodup sha256hex d rec,
    fun get rows h => handleAsyncRollup_keys sha256hex get d rec rows h, ?_⟩
  · intro k
    rw [rollupItems_keys]
    constructor
    · rintro ⟨b, hb, hr⟩
      exact ⟨b, hb, (resolveUUID_eq_some_iff sha256hex b k).mp hr⟩
    · rintro ⟨b, hb, hr⟩
      exact ⟨b, hb, (resolveUUID_eq_some_iff sha256hex b k).mpr hr⟩
  · intro pre b post hsplit hu hc
    have hnone := resolveUUID_eq_none sha256hex b hu hc
    have hstep : ∀ (r : Report) (items : Items) (x : BoardSeen),
        rollupStep sha256hex d { r with BoardsSeen := pre ++ post } items x
          = rollupStep sha256hex d r items x := fun _ _ _ => rfl
    have hfun : rollupStep sha256hex d { rec with BoardsSeen := pre ++ post }
        = rollupStep sha256hex d rec := by
      funext items x
      exact hstep rec items x
    unfold rollupItems
    rw [hfun, hsplit]
    simp [List.foldl_append, rollupStep, hnone]

/-- C9, witness: a report whose second sighting has neither `UUID` nor `CPU`. -/
theorem identity_resolution_witness :
    (∀ k, k ∈ (rollupItems hexStub (itemAt 1)
          (reportOf [sighting "u" "" "Revo", sighting "" "" "Ghost",
            sighting "" "ABC123" "CC3D"] "")).keys
        ↔ ∃ b ∈ (reportOf [sighting "u" "" "Revo", sighting "" "" "Ghost",
            sighting "" "ABC123" "CC3D"] "").BoardsSeen,
          (b.UUID ≠ "" ∨ b.CPU ≠ "") ∧ k = identityOf hexStub b)
      ∧ (rollupItems hexStub (itemAt 1)
          (reportOf [sighting "u" "" "Revo", sighting "" "" "Ghost",
            sighting "" "ABC123" "CC3D"] "")).keys = ["u", "sha256:ABC123"]
      ∧ rollupItems hexStub (itemAt 1)
          (reportOf [sighting "u" "" "Revo", sighting "" "" "Ghost",
            sighting "" "ABC123" "CC3D"] "")
        = rollupItems hexStub (itemAt 1)
          { reportOf [sighting "u" "" "Revo", sighting "" "" "Ghost",
              sighting "" "ABC123" "CC3D"] "" with
            BoardsSeen := [sighting "u" "" "Revo"] ++ [sighting "" "ABC123" "CC3D"] } :=
  ⟨(identity_resolution hexStub (itemAt 1)
      (reportOf [sighting "u" "" "Revo", sighting "" "" "Ghost",
        sighting "" "ABC123" "CC3D"] "")).1,
    by decide,
    (identity_resolution hexStub (itemAt 1)
      (reportOf [sighting "u" "" "Revo", sighting "" "" "Ghost",
        sighting "" "ABC123" "CC3D"] "")).2.2.2
      [sighting "u" "" "Revo"] (sighting "" "" "Ghost") [sighting "" "ABC123" "CC3D"]
      (by decide) (by decide) (by decide)⟩

/-! ## The claim on `handleUpdateControllers` -/

theorem mem_dropLast_cons {α : Type} (a c : α) (l : List α) (h : c ∈ (a :: l).dropLast) :
    c = a ∨ c ∈ l.dropLast := by
  cases l with
  | nil => simp at h
  | cons x xs =>
    rw [List.dropLast_cons₂] at h
    simpa using h

theorem workItems_cons_task (cx : Codec) (st : UsageStat) (rest : List UsageStat) (t : Task)
    (h : repackage cx st = .task t) : workItems cx (st :: rest) = t :: workItems cx rest := by
  simp [workItems, List.filterMap_cons, h]

theorem workItems_cons_skipped (cx : Codec) (st : UsageStat) (rest : List UsageStat)
    (h : repackage cx st = .skipped) : workItems cx (st :: rest) = workItems cx rest := by
  simp [workItems, List.filterMap_cons, h]

/-- The scan from any state with fewer than 100 pending tasks: the calls still
to be made cut the pending tasks followed by the remaining work items into
batches of 100, the last one possibly shorter. -/
theorem scanFrom_spec (cx : Codec) (addMulti : List Task → Bool)
    (hadd : ∀ ts, addMulti ts = true) (scan : List UsageStat)
    (hok : ∀ st ∈ scan, repackage cx st ≠ .aborted) (tasks : List Task)
    (calls : List (List Task)) (hlt : tasks.length < 100) :
    (scanFrom cx addMulti scan tasks calls).status = 204
      ∧ ∃ more, (scanFrom cx addMulti scan tasks calls).calls = calls ++ more
          ∧ more.flatten = tasks ++ workItems cx scan
          ∧ more.length = (tasks.length + (workItems cx scan).length + 99) / 100
          ∧ (∀ c ∈ more, 1 ≤ c.length ∧ c.length ≤ 100)
          ∧ (∀ c ∈ more.dropLast, c.length = 100) := by
  induction scan generalizing tasks calls with
  | nil =>
    by_cases ht : tasks = []
    · subst ht
      refine ⟨by simp [scanFrom], [], by simp [scanFrom], by simp [workItems], ?_, ?_, ?_⟩
      · simp [workItems]
      · simp
      · simp
    · have hpos : 0 < tasks.length := List.length_pos.mpr ht
      refine ⟨by simp [scanFrom, ht, hadd], [tasks], by simp [scanFrom, ht, hadd],
        by simp [workItems], ?_, ?_, ?_⟩
      · simp only [workItems, List.filterMap_nil, List.length_nil, List.length_singleton]
        omega
      · intro c hc
        simp only [List.mem_singleton] at hc
        subst hc
        omega
      · simp
  | cons st rest ih =>
    have hok' : ∀ x ∈ rest, repackage cx x ≠ .aborted :=
      fun x hx => hok x (List.mem_cons_of_mem _ hx)
    cases hr : repackage cx st with
    | aborted => exact absurd hr (hok st (List.mem_cons_self _ _))
    | skipped =>
      have := ih hok' tasks calls hlt
      simpa [scanFrom, hr, workItems_cons_skipped cx st rest hr] using this
    | task t =>
      rw [workItems_cons_task cx st rest t hr]
      by_cases hfull : (tasks ++ [t]).length = 100
      · obtain ⟨hst, more, hcalls, hflat, hlen, hsize, hdrop⟩ :=
          ih hok' [] (calls ++ [tasks ++ [t]]) (by simp)
        have hrun : scanFrom cx addMulti (st :: rest) tasks calls
            = scanFrom cx addMulti rest [] (calls ++ [tasks ++ [t]]) := by
          simp only [scanFrom, hr]
          rw [if_pos hfull, if_pos (hadd _)]
        rw [hrun]
        refine ⟨hst, (tasks ++ [t]) :: more, ?_, ?_, ?_, ?_, ?_⟩
        · rw [hcalls]
          simp
        · simp [hflat]
        · simp only [List.length_cons, hlen, List.length_nil]
          simp only [List.length_append, List.length_singleton] at hfull
          omega
        · intro c hc
          rcases List.mem_cons.mp hc with h | h
          · subst h
            omega
          · exact hsize c h
        · intro c hc
          rcases mem_dropLast_cons _ _ _ hc with h | h
          · subst h
            exact hfull
          · exact hdrop c h
      · have hlt' : (tasks ++ [t]).length < 100 := by
          simp only [List.length_append, List.length_singleton] at hfull ⊢
          omega
        obtain ⟨hst, more, hcalls, hflat, hlen, hsize, hdrop⟩ :=
          ih hok' (tasks ++ [t]) calls hlt'
        have hrun : scanFrom cx addMulti (st :: rest) tasks calls
            = scanFrom cx addMulti rest (tasks ++ [t]) calls := by
          simp only [scanFrom, hr]
          rw [if_neg hfull]
        rw [hrun]
        refine ⟨hst, more, hcalls, ?_, ?_, hsize, hdrop⟩
        · simp [hflat]
        · rw [hlen]
          simp only [List.length_append, List.length_singleton, List.length_cons,
            List.length_nil]
          congr 2
          omega

/-- C10: for a scan in which no record makes the handler return early and no
`taskqueue.AddMulti` call fails, with `n` the number of records repackaged,
the handler answers 204 after exactly `ceil(n/100)` calls; no call is empty,
every call holds at most 100 tasks and every call but the last exactly 100;
the calls concatenated in call order are the work items in scan order. -/
theorem fan_out_batching (cx : Codec) (addMulti : List Task → Bool) (scan : List UsageStat)
    (hok : ∀ st ∈ scan, repackage cx st ≠ .aborted) (hadd : ∀ ts, addMulti ts = true) :
    (handleUpdateControllers cx addMulti scan).status = 204
      ∧ (handleUpdateControllers cx addMulti scan).calls.flatten = workItems cx scan
      ∧ (handleUpdateControllers cx addMulti scan).calls.length
          = ((workItems cx scan).length + 99) / 100
      ∧ (∀ c ∈ (handleUpdateControllers cx addMulti scan).calls,
          1 ≤ c.length ∧ c.length ≤ 100)
      ∧ (∀ c ∈ (handleUpdateControllers cx addMulti scan).calls.dropLast,
          c.length = 100) := by
  obtain ⟨hst, more, hcalls, hflat, hlen, hsize, hdrop⟩ :=
    scanFrom_spec cx addMulti hadd scan hok [] [] (by simp)
  unfold handleUpdateControllers
  simp only [List.nil_append, List.length_nil, Nat.zero_add] at hcalls hflat hlen
  rw [hcalls]
  exact ⟨hst, hflat, hlen, hsize, hdrop⟩

theorem plainCodec_never_aborts (st : UsageStat) : repackage plainCodec st ≠ .aborted := by
  unfold repackage plainCodec
  by_cases h : st.Data = [] <;> simp [h]

/-- C10, witness: a scan of 205 records of which 204 are repackaged, enqueued
in three calls. -/
theorem fan_out_batching_witness :
    (handleUpdateControllers plainCodec (fun _ => true) scan205).status = 204
      ∧ (handleUpdateControllers plainCodec (fun _ => true) scan205).calls.flatten
          = workItems plainCodec scan205
      ∧ (handleUpdateControllers plainCodec (fun _ => true) scan205).calls.length
          = ((workItems plainCodec scan205).length + 99) / 100
      ∧ (∀ c ∈ (handleUpdateControllers plainCodec (fun _ => true) scan205).calls,
          1 ≤ c.length ∧ c.length ≤ 100)
      ∧ (∀ c ∈ (handleUpdateControllers plainCodec (fun _ => true) scan205).calls.dropLast,
          c.length = 100) :=
  fan_out_batching plainCodec (fun _ => true) scan205
    (fun st _ => plainCodec_never_aborts st) (fun _ => rfl)

/-- The three calls of the scan of 205 records hold 100, 100 and 4 tasks. -/
theorem scan205_calls :
    (handleUpdateControllers plainCodec (fun _ => true) scan205).calls.map List.length
      = [100, 100, 4] := by
  decide

end Autotown
